import Mathlib

/-!
# Verification of the Ancient Owls stock-change scraper

A shallow embedding of the change-detection core of
`src/scrapers/ancient_owls/ancient_owls_scraper.py`, together with proofs
about its diff classification, its snapshot persistence, and its identity
hashing.

Modelling conventions:
* Python dicts become association lists with explicit dict semantics
  (`dbGet`, `dbSet`): unique keys, insertion order preserved, update in place.
* `hashlib.sha256(...).hexdigest()` is modelled by a full SHA-256
  implementation over `Nat` with explicit `% 2^32` truncation (`sha256Hex`).
* `json.dump(db, f, indent=2)` / `json.load(f)` are modelled by a serializer
  for the snapshot shape the program writes (`serializeDb`) and a JSON parser
  (`jsonParse`) following the Python `json` module's grammar.
* File contents are `Option String` (`none` = the file does not exist).
-/

namespace AncientOwls

/-- A scraped product record, as built by `scrape_products_from_category`
(lines 97–103 of the source): `name`, `price`, `url`, `sold_out` (the strings
`"Yes"`/`"No"`), `category`. -/
structure Product where
  name : String
  price : String
  url : String
  sold_out : String
  category : String
deriving Repr, DecidableEq

/-- A persisted snapshot entry, as built in `main` (lines 223–227):
`{name, url, sold_out}`. -/
structure DbEntry where
  name : String
  url : String
  sold_out : String
deriving Repr, DecidableEq

/-- A product database: a Python dict from the hex identifier to its entry,
modelled as an association list with unique keys in insertion order. -/
abbrev Db := List (String × DbEntry)

/-- Python `d.get(k)`: the value at key `k`, or `none`. -/
def dbGet (db : Db) (k : String) : Option DbEntry :=
  match db with
  | [] => none
  | (k', v) :: tl => if k' = k then some v else dbGet tl k

/-- Python `d[k] = v`: replace in place if the key is present, else append
(insertion order preserved, as for a Python dict). -/
def dbSet (db : Db) (k : String) (v : DbEntry) : Db :=
  match db with
  | [] => [(k, v)]
  | (k', v') :: tl => if k' = k then (k, v) :: tl else (k', v') :: dbSet tl k v

/-! ## SHA-256 (model of `hashlib.sha256(... .encode('utf-8')).hexdigest()`)

The hash at line 220 of the source is Python's `hashlib.sha256` over the
UTF-8 encoding of the product URL, rendered as lowercase hex.  `hashlib` is
standard-library code, so it is modelled here by the SHA-256 algorithm
itself (FIPS 180-4), over `Nat` with explicit `% 2^32` truncation. -/

/-- UTF-8 encoding of one character (model of Python `str.encode('utf-8')`,
one code point at a time; Lean `Char` excludes surrogates, as does a valid
Python string for this purpose). -/
def utf8Char (n : Nat) : List Nat :=
  if n < 0x80 then [n]
  else if n < 0x800 then [0xc0 + n / 0x40, 0x80 + n % 0x40]
  else if n < 0x10000 then
    [0xe0 + n / 0x1000, 0x80 + n / 0x40 % 0x40, 0x80 + n % 0x40]
  else
    [0xf0 + n / 0x40000, 0x80 + n / 0x1000 % 0x40,
     0x80 + n / 0x40 % 0x40, 0x80 + n % 0x40]

/-- UTF-8 bytes of a string (model of Python `s.encode('utf-8')`). -/
def utf8Bytes (s : String) : List Nat :=
  s.data.flatMap (fun c => utf8Char c.toNat)

/-- 32-bit right rotation. -/
def rotr (n x : Nat) : Nat := ((x >>> n) ||| (x <<< (32 - n))) % 4294967296

/-- SHA-256 round constants: fractional parts of the cube roots of the first
64 primes. -/
def shaK : List Nat :=
  [1116352408, 1899447441, 3049323471, 3921009573, 961987163, 1508970993,
   2453635748, 2870763221, 3624381080, 310598401, 607225278, 1426881987,
   1925078388, 2162078206, 2614888103, 3248222580, 3835390401, 4022224774,
   264347078, 604807628, 770255983, 1249150122, 1555081692, 1996064986,
   2554220882, 2821834349, 2952996808, 3210313671, 3336571891, 3584528711,
   113926993, 338241895, 666307205, 773529912, 1294757372, 1396182291,
   1695183700, 1986661051, 2177026350, 2456956037, 2730485921, 2820302411,
   3259730800, 3345764771, 3516065817, 3600352804, 4094571909, 275423344,
   430227734, 506948616, 659060556, 883997877, 958139571, 1322822218,
   1537002063, 1747873779, 1955562222, 2024104815, 2227730452, 2361852424,
   2428436474, 2756734187, 3204031479, 3329325298]

/-- SHA-256 initial hash value: fractional parts of the square roots of the
first 8 primes. -/
def shaH0 : List Nat :=
  [1779033703, 3144134277, 1013904242, 2773480762, 1359893119, 2600822924,
   528734635, 1541459225]

/-- Big-endian bytes of `n`, `w` bytes wide. -/
def beBytes (w n : Nat) : List Nat :=
  match w with
  | 0 => []
  | w + 1 => n / 256 ^ w % 256 :: beBytes w n

/-- SHA-256 message padding: append `0x80`, zeros, and the 64-bit big-endian
bit length, reaching a multiple of 64 bytes. -/
def shaPad (msg : List Nat) : List Nat :=
  msg ++ 0x80 :: List.replicate ((119 - msg.length % 64) % 64) 0
      ++ beBytes 8 (8 * msg.length)

/-- Group a byte list into 32-bit big-endian words, 4 bytes per word. -/
def toWords : List Nat → List Nat
  | b0 :: b1 :: b2 :: b3 :: tl =>
      (((b0 * 256 + b1) * 256 + b2) * 256 + b3) :: toWords tl
  | _ => []

/-- Split a word list into blocks of 16 words (structural, so that concrete
hashes reduce in the kernel). -/
def toBlocks : List Nat → List (List Nat)
  | w0 :: w1 :: w2 :: w3 :: w4 :: w5 :: w6 :: w7 ::
    w8 :: w9 :: w10 :: w11 :: w12 :: w13 :: w14 :: w15 :: tl =>
      [w0, w1, w2, w3, w4, w5, w6, w7, w8, w9, w10, w11, w12, w13, w14, w15]
        :: toBlocks tl
  | _ => []

/-- One step of the message-schedule extension: append word `w[t]` computed
from `w[t-2]`, `w[t-7]`, `w[t-15]`, `w[t-16]`. -/
def scheduleStep (w : List Nat) : List Nat :=
  let n := w.length
  let s0 := fun x => rotr 7 x ^^^ rotr 18 x ^^^ (x >>> 3)
  let s1 := fun x => rotr 17 x ^^^ rotr 19 x ^^^ (x >>> 10)
  w ++ [(s1 (w.getD (n - 2) 0) + w.getD (n - 7) 0
         + s0 (w.getD (n - 15) 0) + w.getD (n - 16) 0) % 4294967296]

/-- The 64-word message schedule of one 16-word block. -/
def schedule (block : List Nat) : List Nat :=
  Nat.rec block (fun _ w => scheduleStep w) 48

/-- The SHA-256 compression working state `(a, b, c, d, e, f, g, h)`. -/
structure ShaState where
  a : Nat
  b : Nat
  c : Nat
  d : Nat
  e : Nat
  f : Nat
  g : Nat
  h : Nat
deriving Repr, DecidableEq

/-- One SHA-256 compression round with constant `k` and schedule word `w`. -/
def shaRound (st : ShaState) (kw : Nat × Nat) : ShaState :=
  let S1 := rotr 6 st.e ^^^ rotr 11 st.e ^^^ rotr 25 st.e
  let ch := (st.e &&& st.f) ^^^ ((st.e ^^^ 4294967295) &&& st.g)
  let t1 := (st.h + S1 + ch + kw.1 + kw.2) % 4294967296
  let S0 := rotr 2 st.a ^^^ rotr 13 st.a ^^^ rotr 22 st.a
  let mj := (st.a &&& st.b) ^^^ (st.a &&& st.c) ^^^ (st.b &&& st.c)
  let t2 := (S0 + mj) % 4294967296
  ⟨(t1 + t2) % 4294967296, st.a, st.b, st.c,
   (st.d + t1) % 4294967296, st.e, st.f, st.g⟩

/-- Compress one block into the running 8-word hash. -/
def shaCompress (hs : List Nat) (block : List Nat) : List Nat :=
  let init : ShaState :=
    ⟨hs.getD 0 0, hs.getD 1 0, hs.getD 2 0, hs.getD 3 0,
     hs.getD 4 0, hs.getD 5 0, hs.getD 6 0, hs.getD 7 0⟩
  let st := (shaK.zip (schedule block)).foldl shaRound init
  [(hs.getD 0 0 + st.a) % 4294967296, (hs.getD 1 0 + st.b) % 4294967296,
   (hs.getD 2 0 + st.c) % 4294967296, (hs.getD 3 0 + st.d) % 4294967296,
   (hs.getD 4 0 + st.e) % 4294967296, (hs.getD 5 0 + st.f) % 4294967296,
   (hs.getD 6 0 + st.g) % 4294967296, (hs.getD 7 0 + st.h) % 4294967296]

/-- Lowercase hex digit for `n < 16`. -/
def hexDigit (n : Nat) : Char :=
  if n < 10 then Char.ofNat (48 + n) else Char.ofNat (87 + n)

/-- Lowercase hex of `n`, `w` digits wide, most significant first. -/
def hexNat (w n : Nat) : List Char :=
  match w with
  | 0 => []
  | w + 1 => hexDigit (n / 16 ^ w % 16) :: hexNat w n

/-- SHA-256 digest of a byte list, as the 64-character lowercase hex string. -/
def sha256Bytes (msg : List Nat) : String :=
  let words := (toBlocks (toWords (shaPad msg))).foldl shaCompress shaH0
  String.mk (words.flatMap (hexNat 8))

/-- Model of line 220 of the source:
`hashlib.sha256(product['url'].encode('utf-8')).hexdigest()`. -/
def sha256Hex (s : String) : String := sha256Bytes (utf8Bytes s)

/-! ## The diff engine (lines 213–237 of `main`) -/

/-- The snapshot entry stored for a product (lines 223–227). -/
def productEntry (p : Product) : DbEntry := ⟨p.name, p.url, p.sold_out⟩

/-- The mutable state of the classification loop: `current_db`,
`newly_found_products`, `restocked_products` (lines 214–216). -/
structure ClassifyState where
  current_db : Db
  newly_found : List Product
  restocked : List Product
deriving Repr, DecidableEq

/-- One iteration of the loop at lines 218–237: hash the URL, store the
current state into `current_db`, then classify against `previous_db`:
absent ⇒ new; present with `sold_out` going `"Yes"` → `"No"` ⇒ restocked;
otherwise no classification. -/
def classifyStep (previous_db : Db) (st : ClassifyState) (p : Product) :
    ClassifyState :=
  let product_hash := sha256Hex p.url
  let db := dbSet st.current_db product_hash (productEntry p)
  match dbGet previous_db product_hash with
  | none => ⟨db, st.newly_found ++ [p], st.restocked⟩
  | some prior =>
      if prior.sold_out == "Yes" && p.sold_out == "No" then
        ⟨db, st.newly_found, st.restocked ++ [p]⟩
      else ⟨db, st.newly_found, st.restocked⟩

/-- The whole classification pass of `main` (lines 213–237): fold the loop
body over the scraped batch starting from empty accumulators. -/
def classify (all_products : List Product) (previous_db : Db) : ClassifyState :=
  all_products.foldl (classifyStep previous_db) ⟨[], [], []⟩

/-- The condition under which the loop appends `p` to `newly_found_products`
(line 231): no prior entry under the hash of its URL. -/
def isNewRec (prev : Db) (p : Product) : Bool :=
  (dbGet prev (sha256Hex p.url)).isNone

/-- The condition under which the loop appends `p` to `restocked_products`
(line 236): a prior entry exists and its `sold_out` goes `"Yes"` → `"No"`. -/
def isRestockRec (prev : Db) (p : Product) : Bool :=
  match dbGet prev (sha256Hex p.url) with
  | none => false
  | some prior => prior.sold_out == "Yes" && p.sold_out == "No"

/-- The `current_db` assembled by the loop (lines 222–227), starting from
`db0`: every record unconditionally stored under the hash of its URL. -/
def snapshotOf (B : List Product) (db0 : Db) : Db :=
  B.foldl (fun db p => dbSet db (sha256Hex p.url) (productEntry p)) db0

/-! ## JSON values (model of the Python `json` module)

`load_product_database` calls `json.load` and `save_product_database` calls
`json.dump(database, f, indent=2)`.  The `json` module is standard-library
code; it is modelled by a JSON value type, a parser following the module's
grammar (including `NaN`/`Infinity` constants, last-wins duplicate object
keys, and `\uXXXX` escapes with surrogate pairs), and a serializer producing
exactly the `indent=2`, `ensure_ascii` text `json.dump` writes for the
snapshot shape this program persists.  Number lexemes are kept as strings:
no claim depends on numeric values.  One simplification: escape sequences
denoting lone surrogates are rejected by the model parser (a Lean `Char`
cannot carry them), while Python would keep them; the program itself never
writes such data. -/

inductive Json where
  | null
  | bool (b : Bool)
  | num (lexeme : String)
  | str (s : String)
  | arr (elems : List Json)
  | obj (members : List (String × Json))

/-- Whether a JSON value is an object, i.e. loads as a Python dict. -/
def Json.isObj : Json → Bool
  | .obj _ => true
  | _ => false

/-- The opening-brace character. -/
def lbrace : Char := Char.ofNat 123

/-- The closing-brace character. -/
def rbrace : Char := Char.ofNat 125

/-- JSON whitespace, as in the Python scanner. -/
def isJsonWs (c : Char) : Bool :=
  c == ' ' || c == '\t' || c == '\n' || c == '\r'

/-- Drop leading JSON whitespace. -/
def skipWs : List Char → List Char
  | [] => []
  | c :: cs => if isJsonWs c then skipWs cs else c :: cs

/-- The value of one hex digit, if any. -/
def hexVal (c : Char) : Option Nat :=
  if '0' ≤ c && c ≤ '9' then some (c.toNat - 48)
  else if 'a' ≤ c && c ≤ 'f' then some (c.toNat - 87)
  else if 'A' ≤ c && c ≤ 'F' then some (c.toNat - 55)
  else none

/-- The value of a four-hex-digit group, if all four digits are valid. -/
def hexDecode4 (a b c d : Char) : Option Nat :=
  match hexVal a, hexVal b, hexVal c, hexVal d with
  | some va, some vb, some vc, some vd =>
      some (((va * 16 + vb) * 16 + vc) * 16 + vd)
  | _, _, _, _ => none

/-- The character denoted by a single-character escape, if valid. -/
def unescapeChar : Char → Option Char
  | '"' => some '"'
  | '\\' => some '\\'
  | '/' => some '/'
  | 'b' => some (Char.ofNat 8)
  | 'f' => some (Char.ofNat 12)
  | 'n' => some '\n'
  | 'r' => some '\r'
  | 't' => some '\t'
  | _ => none

mutual

/-- Parse the body of a JSON string after its opening quote, yielding the
decoded characters and the input remaining after the closing quote. Models
the Python scanner with `strict=True`: unescaped control characters are
rejected, `\uXXXX` escapes are decoded, and a high surrogate followed by a
low-surrogate escape is combined into one code point. -/
def parseStringAux (acc : List Char) : List Char → Option (List Char × List Char)
  | [] => none
  | c :: rest =>
    if c = '"' then some (acc.reverse, rest)
    else if c = '\\' then parseEscape acc rest
    else if c.toNat < 0x20 then none
    else parseStringAux (c :: acc) rest

/-- Parse what follows a backslash: a `uXXXX` group (high surrogates hand
over to `parseLowSurrogate`) or a single-character escape. -/
def parseEscape (acc : List Char) : List Char → Option (List Char × List Char)
  | 'u' :: h1 :: h2 :: h3 :: h4 :: rest1 =>
    match hexDecode4 h1 h2 h3 h4 with
    | none => none
    | some n =>
      if 0xd800 ≤ n ∧ n ≤ 0xdbff then parseLowSurrogate acc n rest1
      else if 0xdc00 ≤ n ∧ n ≤ 0xdfff then none
      else parseStringAux (Char.ofNat n :: acc) rest1
  | e :: rest1 =>
    match unescapeChar e with
    | some u => parseStringAux (u :: acc) rest1
    | none => none
  | [] => none

/-- After a high-surrogate escape `n`, parse the mandatory low-surrogate
escape and combine the pair into one code point. -/
def parseLowSurrogate (acc : List Char) (n : Nat) :
    List Char → Option (List Char × List Char)
  | '\\' :: 'u' :: h5 :: h6 :: h7 :: h8 :: rest2 =>
    match hexDecode4 h5 h6 h7 h8 with
    | none => none
    | some m =>
      if 0xdc00 ≤ m ∧ m ≤ 0xdfff then
        parseStringAux
          (Char.ofNat (0x10000 + (n - 0xd800) * 0x400 + (m - 0xdc00)) :: acc)
          rest2
      else none
  | _ => none

end

/-- Decimal digit test. -/
def isDigitC (c : Char) : Bool := '0' ≤ c && c ≤ '9'

/-- Split off a maximal run of decimal digits. -/
def takeDigits : List Char → List Char × List Char
  | [] => ([], [])
  | c :: cs =>
    if isDigitC c then
      let (ds, r) := takeDigits cs
      (c :: ds, r)
    else ([], c :: cs)

/-- The integer part of a JSON number: `0`, or a nonzero digit followed by
digits (leading zeros rejected, as in the Python number regex). -/
def parseIntPart : List Char → Option (List Char × List Char)
  | [] => none
  | c :: rest =>
    if c = '0' then some (['0'], rest)
    else if '1' ≤ c && c ≤ '9' then
      let (ds, r) := takeDigits rest
      some (c :: ds, r)
    else none

/-- The optional fractional part `.digits` of a JSON number; consumed only
when at least one digit follows the point. -/
def parseFracPart : List Char → List Char × List Char
  | [] => ([], [])
  | c :: rest =>
    if c = '.' then
      match takeDigits rest with
      | ([], _) => ([], c :: rest)
      | (ds, r) => (c :: ds, r)
    else ([], c :: rest)

/-- The optional exponent part `e[+-]digits` of a JSON number. -/
def parseExpPart : List Char → List Char × List Char
  | [] => ([], [])
  | c :: rest =>
    if c = 'e' || c = 'E' then
      match rest with
      | s :: rest2 =>
        if s = '+' || s = '-' then
          match takeDigits rest2 with
          | ([], _) => ([], c :: rest)
          | (ds, r) => (c :: s :: ds, r)
        else
          match takeDigits rest with
          | ([], _) => ([], c :: rest)
          | (ds, r) => (c :: ds, r)
      | [] => ([], [c])
    else ([], c :: rest)

/-- The lexeme of a JSON number (Python regex
`-?(0|[1-9]digits)(.digits)?([eE][+-]?digits)?`), with the remaining input. -/
def parseNumberLex (cs : List Char) : Option (List Char × List Char) :=
  match cs with
  | '-' :: rest =>
    match parseIntPart rest with
    | none => none
    | some (ds, r) =>
      let (fs, r2) := parseFracPart r
      let (es, r3) := parseExpPart r2
      some ('-' :: (ds ++ fs ++ es), r3)
  | _ =>
    match parseIntPart cs with
    | none => none
    | some (ds, r) =>
      let (fs, r2) := parseFracPart r
      let (es, r3) := parseExpPart r2
      some (ds ++ fs ++ es, r3)

/-- Python dict assignment on a JSON object member list: replace in place
when the key is present, else append (models the scanner's incremental dict
construction, duplicate keys last-wins). -/
def jsonObjSet (ms : List (String × Json)) (k : String) (v : Json) :
    List (String × Json) :=
  match ms with
  | [] => [(k, v)]
  | (k', v') :: tl => if k' = k then (k, v) :: tl else (k', v') :: jsonObjSet tl k v

/-- Collapse a parsed member sequence into a dict-like member list. -/
def jsonObjOfMembers (ms : List (String × Json)) : List (String × Json) :=
  ms.foldl (fun acc kv => jsonObjSet acc kv.1 kv.2) []

/-- Consume an expected literal character sequence, returning the rest. -/
def stripLit : List Char → List Char → Option (List Char)
  | [], cs => some cs
  | l :: ls, c :: cs => if c = l then stripLit ls cs else none
  | _ :: _, [] => none

mutual

/-- One JSON value (after optional whitespace) and the remaining input;
`fuel` decreases at every mutual call and is sized by the caller so that it
never runs out on inputs it is actually run on. -/
def parseVal (fuel : Nat) (cs : List Char) : Option (Json × List Char) :=
  match fuel with
  | 0 => none
  | fuel + 1 =>
    match skipWs cs with
    | [] => none
    | c :: r =>
      if c = 'n' then (stripLit ['u', 'l', 'l'] r).map (fun r1 => (.null, r1))
      else if c = 't' then
        (stripLit ['r', 'u', 'e'] r).map (fun r1 => (.bool true, r1))
      else if c = 'f' then
        (stripLit ['a', 'l', 's', 'e'] r).map (fun r1 => (.bool false, r1))
      else if c = 'N' then
        (stripLit ['a', 'N'] r).map (fun r1 => (.num ("NaN"), r1))
      else if c = 'I' then
        (stripLit ['n', 'f', 'i', 'n', 'i', 't', 'y'] r).map
          (fun r1 => (.num ("Infinity"), r1))
      else if c = '"' then
        match parseStringAux [] r with
        | some (chars, r1) => some (.str (String.mk chars), r1)
        | none => none
      else if c = '[' then
        match skipWs r with
        | [] => none
        | c1 :: r1 =>
          if c1 = ']' then some (.arr [], r1)
          else
            match parseElems fuel (c1 :: r1) with
            | some (es, r2) => some (.arr es, r2)
            | none => none
      else if c = lbrace then
        match skipWs r with
        | [] => none
        | c1 :: r1 =>
          if c1 = rbrace then some (.obj [], r1)
          else
            match parseMembers fuel (c1 :: r1) with
            | some (ms, r2) => some (.obj (jsonObjOfMembers ms), r2)
            | none => none
      else
        match parseNumberLex (c :: r) with
        | some (lex, r1) => some (.num (String.mk lex), r1)
        | none =>
          if c = '-' then
            match stripLit ['I', 'n', 'f', 'i', 'n', 'i', 't', 'y'] r with
            | some r1 => some (.num ("-Infinity"), r1)
            | none => none
          else none

/-- One-or-more comma-separated array elements, up to the closing bracket. -/
def parseElems (fuel : Nat) (cs : List Char) : Option (List Json × List Char) :=
  match fuel with
  | 0 => none
  | fuel + 1 =>
    match parseVal fuel cs with
    | none => none
    | some (v, r) =>
      match skipWs r with
      | [] => none
      | c :: r1 =>
        if c = ',' then
          match parseElems fuel r1 with
          | some (vs, r2) => some (v :: vs, r2)
          | none => none
        else if c = ']' then some ([v], r1)
        else none

/-- One-or-more comma-separated object members, up to the closing brace. -/
def parseMembers (fuel : Nat) (cs : List Char) :
    Option (List (String × Json) × List Char) :=
  match fuel with
  | 0 => none
  | fuel + 1 =>
    match skipWs cs with
    | [] => none
    | c :: r =>
      if c = '"' then
        match parseStringAux [] r with
        | none => none
        | some (kchars, r1) =>
          match skipWs r1 with
          | [] => none
          | c2 :: r2 =>
            if c2 = ':' then
              match parseVal fuel r2 with
              | none => none
              | some (v, r3) =>
                match skipWs r3 with
                | [] => none
                | c3 :: r4 =>
                  if c3 = ',' then
                    match parseMembers fuel r4 with
                    | some (ms, r5) => some ((String.mk kchars, v) :: ms, r5)
                    | none => none
                  else if c3 = rbrace then some ([(String.mk kchars, v)], r4)
                  else none
            else none
      else none

end

/-- Parse a complete JSON document (model of Python `json.loads`): one value
with only whitespace around it. -/
def jsonParse (s : String) : Option Json :=
  match parseVal (s.data.length + 1) s.data with
  | some (v, r) => if skipWs r = [] then some v else none
  | none => none

/-! ## The snapshot store (lines 126–139) -/

/-- Model of `load_product_database` (lines 126–132): the persisted file
contents (`none` when the file does not exist) are read and parsed; a
missing file (`FileNotFoundError`) or unparseable contents
(`json.JSONDecodeError`) yield the empty dict, and any successfully parsed
JSON value — an object or not — is returned unchanged. -/
def load_product_database (contents : Option String) : Json :=
  match contents with
  | none => .obj []
  | some s =>
    match jsonParse s with
    | none => .obj []
    | some v => v

/-- JSON escape of one character, as `json.dump` with the default
`ensure_ascii=True` writes it: the two-character escapes, printable ASCII
verbatim, `\uXXXX` otherwise, with surrogate pairs above `0xFFFF`. -/
def escapeChar (c : Char) : List Char :=
  if c = '\\' then ['\\', '\\']
  else if c = '"' then ['\\', '"']
  else if c = Char.ofNat 8 then ['\\', 'b']
  else if c = Char.ofNat 12 then ['\\', 'f']
  else if c = '\n' then ['\\', 'n']
  else if c = '\r' then ['\\', 'r']
  else if c = '\t' then ['\\', 't']
  else if 0x20 ≤ c.toNat ∧ c.toNat ≤ 0x7e then [c]
  else if c.toNat < 0x10000 then '\\' :: 'u' :: hexNat 4 c.toNat
  else
    ('\\' :: 'u' :: hexNat 4 (0xd800 + (c.toNat - 0x10000) / 0x400)) ++
      ('\\' :: 'u' :: hexNat 4 (0xdc00 + (c.toNat - 0x10000) % 0x400))

/-- A JSON string literal: quote, escaped characters, quote. -/
def quoteStringL (s : String) : List Char :=
  '"' :: (s.data.flatMap escapeChar ++ ['"'])

/-- The `",\n    "` separator between the fields of one entry at `indent=2`,
nesting depth 2. -/
def fieldSep : List Char := [',', '\n', ' ', ' ', ' ', ' ']

/-- The inner three-field object of one entry as `json.dump(..., indent=2)`
renders it, at four-space indent with a two-space-indented closing brace. -/
def innerObjTextL (e : DbEntry) : List Char :=
  lbrace :: '\n' :: (' ' :: ' ' :: ' ' :: ' ' ::
      (quoteStringL ("name") ++ ':' :: ' ' :: quoteStringL e.name)) ++
    fieldSep ++ (quoteStringL ("url") ++ ':' :: ' ' :: quoteStringL e.url) ++
    fieldSep ++
      (quoteStringL ("sold_out") ++ ':' :: ' ' :: quoteStringL e.sold_out) ++
    '\n' :: ' ' :: ' ' :: [rbrace]

/-- One entry from its quoted key onwards: key, colon, inner object. -/
def entryTail (kv : String × DbEntry) : List Char :=
  quoteStringL kv.1 ++ ':' :: ' ' :: innerObjTextL kv.2

/-- One snapshot entry as rendered: two-space indent, then the entry. -/
def serializeEntryL (kv : String × DbEntry) : List Char :=
  ' ' :: ' ' :: entryTail kv

/-- The `",\n"`-prefixed continuation for each further entry. -/
def entriesSepText : Db → List Char
  | [] => []
  | kv :: tl => ',' :: '\n' :: (serializeEntryL kv ++ entriesSepText tl)

/-- The serialized entries, joined by `",\n"`. -/
def serializeEntriesL : Db → List Char
  | [] => []
  | kv :: tl => serializeEntryL kv ++ entriesSepText tl

/-- The full text `json.dump(db, f, indent=2)` writes for a snapshot:
`\x7b\x7d` for the empty dict, otherwise the entries between braces. -/
def serializeDbL (db : Db) : List Char :=
  match db with
  | [] => [lbrace, rbrace]
  | _ => lbrace :: '\n' :: (serializeEntriesL db ++ '\n' :: [rbrace])

/-- Model of `save_product_database` (lines 135–139): the file contents
after a completed save. -/
def serializeDb (db : Db) : String := String.mk (serializeDbL db)

/-- The sequence of file contents observable while `save_product_database`
runs (lines 135–139): the code opens the file with mode `w` — truncating it
in place — and then writes the serialization incrementally, so a reader (or
a crash) can see the prior contents, or any prefix of the new text, the
empty prefix (just after truncation) included; the last state is the
complete text.  Granularity is one character: any coarser chunking
observes a subsequence of these states. -/
def save_write_states (pre : Option String) (db : Db) : List (Option String) :=
  pre :: (List.range ((serializeDbL db).length + 1)).map
    (fun n => some (String.mk ((serializeDbL db).take n)))

/-- Decode a persisted entry: an object with exactly the three string fields
the program writes (lines 223–227). -/
def entryFromJson : Json → Option DbEntry
  | .obj [("name", Json.str n), ("url", Json.str u), ("sold_out", Json.str s)] =>
      some ⟨n, u, s⟩
  | _ => none

/-- Decode a list of persisted members into snapshot entries. -/
def dbEntriesFromJson : List (String × Json) → Option Db
  | [] => some []
  | (k, v) :: tl =>
    match entryFromJson v, dbEntriesFromJson tl with
    | some e, some d => some ((k, e) :: d)
    | _, _ => none

/-- Decode a loaded JSON value as a well-formed snapshot, if it is one. -/
def dbFromJson : Json → Option Db
  | .obj ms => dbEntriesFromJson ms
  | _ => none

/-- The JSON value of one snapshot entry. -/
def entryJson (e : DbEntry) : Json :=
  Json.obj [(("name" : String), Json.str e.name),
            (("url" : String), Json.str e.url),
            (("sold_out" : String), Json.str e.sold_out)]

/-- The JSON value a snapshot denotes. -/
def dbToJson (db : Db) : Json :=
  .obj (db.map (fun kv => (kv.1, entryJson kv.2)))

/-! ## The run orchestrator (lines 178–256) -/

/-- The persisted-file effect of one run of `main`, as a function of the
category links found, the scraped batch, and the prior file contents:
* no category links (lines 190–192): return before touching the file;
* an empty batch (lines 206–210): `save_product_database(\x7b\x7d)` — the
  file is replaced by the empty snapshot;
* otherwise: load, classify, and persist `current_db` (lines 213–255).
The `none` branch of the load models the run crashing (an uncaught
exception on a loaded value that is not a well-formed snapshot) before any
save, leaving the file as it was. -/
def mainRun (categories : List String) (all_products : List Product)
    (contents : Option String) : Option String :=
  if categories = [] then contents
  else if all_products = [] then some (serializeDb [])
  else
    match dbFromJson (load_product_database contents) with
    | none => contents
    | some previous_db =>
        some (serializeDb (classify all_products previous_db).current_db)

/-! # Theorems

## Dictionary and classification lemmas -/

theorem dbGet_dbSet (db : Db) (k k' : String) (v : DbEntry) :
    dbGet (dbSet db k v) k' = if k = k' then some v else dbGet db k' := by
  induction db with
  | nil => simp [dbSet, dbGet]
  | cons hd tl ih =>
    obtain ⟨k0, v0⟩ := hd
    by_cases h0 : k0 = k
    · subst h0
      by_cases hk : k0 = k' <;> simp [dbSet, dbGet, hk]
    · by_cases hk : k0 = k'
      · subst hk
        have hne : ¬k = k0 := fun he => h0 he.symm
        simp [dbSet, dbGet, h0, hne]
      · simp [dbSet, dbGet, h0, hk, ih]

theorem find?_orElse_append {α : Type} (p : α → Bool) (l₁ l₂ : List α) :
    (l₁ ++ l₂).find? p = ((l₁.find? p).orElse fun _ => l₂.find? p) := by
  induction l₁ with
  | nil => simp
  | cons a l ih => by_cases h : p a <;> simp [List.find?_cons, h, ih]

theorem classifyStep_eq (prev : Db) (st : ClassifyState) (p : Product) :
    classifyStep prev st p =
      ⟨dbSet st.current_db (sha256Hex p.url) (productEntry p),
       st.newly_found ++ (if isNewRec prev p then [p] else []),
       st.restocked ++ (if isRestockRec prev p then [p] else [])⟩ := by
  unfold classifyStep isNewRec isRestockRec
  cases hdb : dbGet prev (sha256Hex p.url) with
  | none => simp [hdb]
  | some prior =>
    by_cases h1 : prior.sold_out = "Yes" <;> by_cases h2 : p.sold_out = "No" <;>
      simp [hdb, h1, h2]

theorem classify_foldl (prev : Db) :
    ∀ (B : List Product) (st : ClassifyState),
      B.foldl (classifyStep prev) st =
        ⟨snapshotOf B st.current_db,
         st.newly_found ++ B.filter (isNewRec prev),
         st.restocked ++ B.filter (isRestockRec prev)⟩
  | [], st => by simp [snapshotOf]
  | p :: B, st => by
    rw [List.foldl_cons, classifyStep_eq, classify_foldl prev B]
    by_cases h1 : isNewRec prev p <;> by_cases h2 : isRestockRec prev p <;>
      simp [h1, h2, snapshotOf, List.filter_cons]

theorem classify_eq (B : List Product) (prev : Db) :
    classify B prev =
      ⟨snapshotOf B [], B.filter (isNewRec prev), B.filter (isRestockRec prev)⟩ := by
  unfold classify
  rw [classify_foldl]
  simp

theorem dbGet_snapshotOf (B : List Product) (db0 : Db) (k : String) :
    dbGet (snapshotOf B db0) k =
      match B.reverse.find? (fun p => sha256Hex p.url == k) with
      | some p => some (productEntry p)
      | none => dbGet db0 k := by
  induction B generalizing db0 with
  | nil => simp [snapshotOf]
  | cons p B ih =>
    have hstep : snapshotOf (p :: B) db0 =
        snapshotOf B (dbSet db0 (sha256Hex p.url) (productEntry p)) := rfl
    rw [hstep, ih, List.reverse_cons, find?_orElse_append]
    cases hf : B.reverse.find? (fun q => sha256Hex q.url == k) with
    | some q => simp [Option.orElse]
    | none =>
      by_cases hp : sha256Hex p.url = k <;>
        simp [Option.orElse, List.find?_cons, hp, dbGet_dbSet]

theorem dbGet_classify_current_db (B : List Product) (prev : Db) (k : String) :
    dbGet (classify B prev).current_db k =
      (B.reverse.find? (fun p => sha256Hex p.url == k)).map productEntry := by
  rw [classify_eq]
  show dbGet (snapshotOf B []) k = _
  rw [dbGet_snapshotOf]
  cases B.reverse.find? (fun p => sha256Hex p.url == k) <;> simp [dbGet]

theorem dbGet_classify_self (B : List Product) (prev : Db) (p : Product)
    (hp : p ∈ B) :
    ∃ q, q ∈ B ∧ sha256Hex q.url = sha256Hex p.url ∧
      dbGet (classify B prev).current_db (sha256Hex p.url) =
        some (productEntry q) := by
  rw [dbGet_classify_current_db]
  cases hf : B.reverse.find? (fun r => sha256Hex r.url == sha256Hex p.url) with
  | none =>
    exfalso
    have := List.find?_eq_none.mp hf p (List.mem_reverse.mpr hp)
    simp at this
  | some q =>
    refine ⟨q, List.mem_reverse.mp (List.mem_of_find?_eq_some hf), ?_, by simp⟩
    have := List.find?_some hf
    simpa using this

theorem not_new_and_restock (prev : Db) (p : Product) :
    ¬(isNewRec prev p = true ∧ isRestockRec prev p = true) := by
  unfold isNewRec isRestockRec
  cases dbGet prev (sha256Hex p.url) <;> simp

/-! ## Claim theorems: the diff engine -/

/-- C1: for every batch and previous snapshot, the classification of each
record `r` is decided solely by `dbGet prev (sha256Hex r.url)`: the new
records are exactly those with no prior entry (whatever their availability,
`SOLD_OUT` included — `isNewRec` does not read `r.sold_out`), the restocked
records exactly those whose prior entry was sold out while they are now in
stock, and every other record (unchanged, or in-stock to sold-out) lands in
neither list. -/
theorem claim1_diff_by_prior_entry (B : List Product) (prev : Db) :
    (classify B prev).newly_found = B.filter (isNewRec prev) ∧
    (classify B prev).restocked = B.filter (isRestockRec prev) := by
  rw [classify_eq]
  exact ⟨rfl, rfl⟩

/-- C10: no record occurrence is placed in both result lists of one run:
filtering the new records by membership in the restocked records leaves
nothing. -/
theorem claim10_lists_mutually_exclusive (B : List Product) (prev : Db) :
    ((classify B prev).newly_found).filter
      (fun p => (classify B prev).restocked.contains p) = [] := by
  rw [classify_eq]
  refine List.filter_eq_nil_iff.mpr ?_
  intro p hpmem
  have hnew := (List.mem_filter.mp hpmem).2
  intro hcontains
  have hres := (List.mem_filter.mp (List.mem_of_elem_eq_true hcontains)).2
  exact not_new_and_restock prev p ⟨hnew, hres⟩

/-- C4: duplicate-key semantics. First, the entry stored in `current_db`
under any key is the one of the **last** batch occurrence hashing to that
key (`find?` over the reversed batch). Second, classification is evaluated
per occurrence against the *original* previous snapshot only (the filter
form). Third, a record whose identity is absent from the previous snapshot
appears in `new_records` once per occurrence (its full batch count). -/
theorem claim4_duplicate_key_semantics (B : List Product) (prev : Db) :
    (∀ k, dbGet (classify B prev).current_db k =
      (B.reverse.find? (fun p => sha256Hex p.url == k)).map productEntry) ∧
    (classify B prev).newly_found = B.filter (isNewRec prev) ∧
    (∀ p : Product, (classify B prev).newly_found.count p =
      if isNewRec prev p then B.count p else 0) := by
  refine ⟨fun k => dbGet_classify_current_db B prev k, ?_, ?_⟩
  · rw [classify_eq]
  · intro p
    rw [classify_eq]
    show (B.filter (isNewRec prev)).count p = _
    by_cases hnew : isNewRec prev p
    · rw [if_pos hnew]
      exact List.count_filter hnew
    · rw [if_neg hnew]
      refine List.count_eq_zero.mpr ?_
      intro hmem
      exact hnew (List.mem_filter.mp hmem).2

/-- C2, counterexample: idempotence fails as stated. With the batch holding
two records with the same URL but different availabilities (`"No"` then
`"Yes"`), the snapshot written by the first run records the last
availability, and the second run against it reports the first occurrence as
restocked. -/
theorem claim2_counterexample :
    (classify [⟨"p", "$1", "u", "No", "c"⟩, ⟨"p", "$1", "u", "Yes", "c"⟩]
        ((classify [⟨"p", "$1", "u", "No", "c"⟩, ⟨"p", "$1", "u", "Yes", "c"⟩]
          []).current_db)).restocked ≠ [] := by
  decide

/-- C2, amended: classifying a batch a second time against the snapshot the
first run produced yields empty `new_records` unconditionally, and empty
`restocked_records` provided any two batch records whose identity keys hash
equal (duplicate URLs in particular) carry the same availability. -/
theorem claim2_idempotence_amended (B : List Product) (prev : Db) :
    (classify B (classify B prev).current_db).newly_found = [] ∧
    ((∀ p₁ ∈ B, ∀ p₂ ∈ B,
        sha256Hex p₁.url = sha256Hex p₂.url → p₁.sold_out = p₂.sold_out) →
      (classify B (classify B prev).current_db).restocked = []) := by
  have hchar := classify_eq B ((classify B prev).current_db)
  rw [hchar]
  constructor
  · refine List.filter_eq_nil_iff.mpr ?_
    intro p hp
    obtain ⟨q, hqB, hqh, hget⟩ := dbGet_classify_self B prev p hp
    simp [isNewRec, hget]
  · intro hcons
    refine List.filter_eq_nil_iff.mpr ?_
    intro p hp
    obtain ⟨q, hqB, hqh, hget⟩ := dbGet_classify_self B prev p hp
    have hsold := hcons q hqB p hp hqh
    simp only [isRestockRec, hget, productEntry]
    simp [hsold]
    intro hyes hno
    exact absurd (hyes.symm.trans hno) (by decide)

/-- C2, witness: both parts at a concrete batch, the restock part's
equal-availability hypothesis discharged by evaluation. -/
theorem claim2_witness :
    (classify [⟨"p", "$1", "u", "No", "c"⟩]
        ((classify [⟨"p", "$1", "u", "No", "c"⟩] []).current_db)).newly_found = [] ∧
    (classify [⟨"p", "$1", "u", "No", "c"⟩]
        ((classify [⟨"p", "$1", "u", "No", "c"⟩] []).current_db)).restocked = [] :=
  ⟨(claim2_idempotence_amended [⟨"p", "$1", "u", "No", "c"⟩] []).1,
   (claim2_idempotence_amended [⟨"p", "$1", "u", "No", "c"⟩] []).2 (by decide)⟩

/-! ## Round-trip lemmas: whitespace and strings -/

theorem skipWs_cons_false (c : Char) (l : List Char) (h : isJsonWs c = false) :
    skipWs (c :: l) = c :: l := by
  show (if isJsonWs c = true then skipWs l else c :: l) = c :: l
  rw [h]
  simp

theorem skipWs_cons_true (c : Char) (l : List Char) (h : isJsonWs c = true) :
    skipWs (c :: l) = skipWs l := by
  show (if isJsonWs c = true then skipWs l else c :: l) = skipWs l
  rw [h]
  simp

theorem skipWs_idem (cs : List Char) : skipWs (skipWs cs) = skipWs cs := by
  induction cs with
  | nil => rfl
  | cons c l ih =>
    by_cases h : isJsonWs c = true
    · rw [skipWs_cons_true c l h]
      exact ih
    · have h' : isJsonWs c = false := by
        revert h
        cases isJsonWs c <;> simp
      rw [skipWs_cons_false c l h', skipWs_cons_false c l h']

theorem hexVal_hexDigit (k : Nat) (h : k < 16) : hexVal (hexDigit k) = some k := by
  have hk : k = 0 ∨ k = 1 ∨ k = 2 ∨ k = 3 ∨ k = 4 ∨ k = 5 ∨ k = 6 ∨ k = 7 ∨
      k = 8 ∨ k = 9 ∨ k = 10 ∨ k = 11 ∨ k = 12 ∨ k = 13 ∨ k = 14 ∨ k = 15 := by
    omega
  rcases hk with rfl | rfl | rfl | rfl | rfl | rfl | rfl | rfl |
    rfl | rfl | rfl | rfl | rfl | rfl | rfl | rfl <;> decide

theorem hexDecode4_digits (n : Nat) (h : n < 65536) :
    hexDecode4 (hexDigit (n / 4096 % 16)) (hexDigit (n / 256 % 16))
      (hexDigit (n / 16 % 16)) (hexDigit (n % 16)) = some n := by
  unfold hexDecode4
  rw [hexVal_hexDigit _ (Nat.mod_lt _ (by omega)),
      hexVal_hexDigit _ (Nat.mod_lt _ (by omega)),
      hexVal_hexDigit _ (Nat.mod_lt _ (by omega)),
      hexVal_hexDigit _ (Nat.mod_lt _ (by omega))]
  show some _ = some _
  congr 1
  omega

theorem char_valid_nat (c : Char) :
    c.toNat < 0xd800 ∨ (0xdfff < c.toNat ∧ c.toNat < 0x110000) := c.valid

theorem hexNat_succ (w n : Nat) :
    hexNat (w + 1) n = hexDigit (n / 16 ^ w % 16) :: hexNat w n := rfl

theorem hexNat_four (n : Nat) :
    hexNat 4 n = [hexDigit (n / 4096 % 16), hexDigit (n / 256 % 16),
      hexDigit (n / 16 % 16), hexDigit (n % 16)] := by
  rw [show (4 : Nat) = 3 + 1 from rfl, hexNat_succ,
      show (3 : Nat) = 2 + 1 from rfl, hexNat_succ,
      show (2 : Nat) = 1 + 1 from rfl, hexNat_succ,
      show (1 : Nat) = 0 + 1 from rfl, hexNat_succ,
      show hexNat 0 n = [] from rfl]
  norm_num

/-- The one-step evaluation of the string scanner on a nonempty input. -/
theorem parseStringAux_cons (acc : List Char) (c : Char) (rest : List Char) :
    parseStringAux acc (c :: rest) =
      if c = '"' then some (acc.reverse, rest)
      else if c = '\\' then parseEscape acc rest
      else if c.toNat < 0x20 then none
      else parseStringAux (c :: acc) rest := rfl

/-- Evaluation of the escape parser on a `uXXXX` group. -/
theorem parseEscape_u (acc : List Char) (h1 h2 h3 h4 : Char) (rest : List Char) :
    parseEscape acc ('u' :: h1 :: h2 :: h3 :: h4 :: rest) =
      match hexDecode4 h1 h2 h3 h4 with
      | none => none
      | some n =>
        if 0xd800 ≤ n ∧ n ≤ 0xdbff then parseLowSurrogate acc n rest
        else if 0xdc00 ≤ n ∧ n ≤ 0xdfff then none
        else parseStringAux (Char.ofNat n :: acc) rest := rfl

/-- Evaluation of the low-surrogate parser on a `\uXXXX` group. -/
theorem parseLowSurrogate_u (acc : List Char) (n : Nat) (h5 h6 h7 h8 : Char)
    (rest : List Char) :
    parseLowSurrogate acc n ('\\' :: 'u' :: h5 :: h6 :: h7 :: h8 :: rest) =
      match hexDecode4 h5 h6 h7 h8 with
      | none => none
      | some m =>
        if 0xdc00 ≤ m ∧ m ≤ 0xdfff then
          parseStringAux
            (Char.ofNat (0x10000 + (n - 0xd800) * 0x400 + (m - 0xdc00)) :: acc)
            rest
        else none := rfl

theorem escapeChar_rt (c : Char) (acc rest : List Char) :
    parseStringAux acc (escapeChar c ++ rest) = parseStringAux (c :: acc) rest := by
  by_cases h1 : c = '\\'
  · subst h1; rfl
  by_cases h2 : c = '"'
  · subst h2; rfl
  by_cases h3 : c = Char.ofNat 8
  · subst h3; rfl
  by_cases h4 : c = Char.ofNat 12
  · subst h4; rfl
  by_cases h5 : c = '\n'
  · subst h5; rfl
  by_cases h6 : c = '\r'
  · subst h6; rfl
  by_cases h7 : c = '\t'
  · subst h7; rfl
  unfold escapeChar
  rw [if_neg h1, if_neg h2, if_neg h3, if_neg h4, if_neg h5, if_neg h6, if_neg h7]
  by_cases h8 : 0x20 ≤ c.toNat ∧ c.toNat ≤ 0x7e
  · rw [if_pos h8, List.singleton_append, parseStringAux_cons, if_neg h2,
      if_neg h1, if_neg (show ¬c.toNat < 0x20 by omega)]
  · rw [if_neg h8]
    have hval := char_valid_nat c
    by_cases h9 : c.toNat < 0x10000
    · rw [if_pos h9, hexNat_four]
      simp only [List.cons_append, List.nil_append]
      rw [parseStringAux_cons, if_neg (show ¬('\\' : Char) = '"' by decide),
        if_pos (show ('\\' : Char) = '\\' from rfl), parseEscape_u,
        hexDecode4_digits c.toNat h9]
      simp only []
      rw [if_neg (show ¬(0xd800 ≤ c.toNat ∧ c.toNat ≤ 0xdbff) by omega),
          if_neg (show ¬(0xdc00 ≤ c.toNat ∧ c.toNat ≤ 0xdfff) by omega),
          Char.ofNat_toNat]
    · rw [if_neg h9, hexNat_four, hexNat_four]
      simp only [List.cons_append, List.nil_append]
      rw [parseStringAux_cons, if_neg (show ¬('\\' : Char) = '"' by decide),
        if_pos (show ('\\' : Char) = '\\' from rfl), parseEscape_u,
        hexDecode4_digits _ (by omega)]
      simp only []
      rw [if_pos (show 0xd800 ≤ 0xd800 + (c.toNat - 0x10000) / 0x400 ∧
            0xd800 + (c.toNat - 0x10000) / 0x400 ≤ 0xdbff by omega),
        parseLowSurrogate_u, hexDecode4_digits _ (by omega)]
      simp only []
      rw [if_pos (show 0xdc00 ≤ 0xdc00 + (c.toNat - 0x10000) % 0x400 ∧
            0xdc00 + (c.toNat - 0x10000) % 0x400 ≤ 0xdfff by omega)]
      rw [show 0x10000 + (0xd800 + (c.toNat - 0x10000) / 0x400 - 0xd800) * 0x400 +
            (0xdc00 + (c.toNat - 0x10000) % 0x400 - 0xdc00) = c.toNat by omega,
          Char.ofNat_toNat]

theorem parseStringAux_flatMap (s : List Char) (acc rest : List Char) :
    parseStringAux acc (s.flatMap escapeChar ++ '"' :: rest) =
      some (acc.reverse ++ s, rest) := by
  induction s generalizing acc with
  | nil =>
    simp only [List.flatMap_nil, List.nil_append]
    rw [parseStringAux_cons, if_pos rfl, List.append_nil]
  | cons c s ih =>
    simp only [List.flatMap_cons, List.append_assoc]
    rw [escapeChar_rt, ih (c :: acc)]
    simp [List.append_assoc]

/-- The evaluation of the value parser on a quote-headed input. -/
theorem parseVal_quote (f : Nat) (r : List Char) :
    parseVal (f + 1) ('"' :: r) =
      match parseStringAux [] r with
      | some (chars, r1) => some (.str (String.mk chars), r1)
      | none => none := rfl

theorem parseVal_string (f : Nat) (s : String) (rest : List Char) :
    parseVal (f + 1) (quoteStringL s ++ rest) = some (.str s, rest) := by
  have hq : quoteStringL s ++ rest =
      '"' :: (s.data.flatMap escapeChar ++ '"' :: rest) := by
    simp [quoteStringL]
  rw [hq, parseVal_quote, parseStringAux_flatMap s.data [] rest]
  simp

/-! ## Round-trip lemmas: values, members, objects -/

theorem parseVal_string2 (f : Nat) (s : String) (rest : List Char) :
    parseVal (f + 1) ('"' :: (s.data.flatMap escapeChar ++ '"' :: rest)) =
      some (.str s, rest) := by
  rw [parseVal_quote, parseStringAux_flatMap s.data [] rest]
  simp

theorem parseVal_space (f : Nat) (r : List Char) :
    parseVal (f + 1) (' ' :: r) = parseVal (f + 1) r := rfl

theorem parseVal_newline (f : Nat) (r : List Char) :
    parseVal (f + 1) ('\n' :: r) = parseVal (f + 1) r := rfl

theorem parseMembers_space (f : Nat) (r : List Char) :
    parseMembers (f + 1) (' ' :: r) = parseMembers (f + 1) r := rfl

theorem parseMembers_newline (f : Nat) (r : List Char) :
    parseMembers (f + 1) ('\n' :: r) = parseMembers (f + 1) r := rfl

/-- Evaluation of the value parser on an open-brace-headed input. -/
theorem parseVal_lbrace (f : Nat) (r : List Char) :
    parseVal (f + 1) (lbrace :: r) =
      match skipWs r with
      | [] => none
      | c1 :: r1 =>
        if c1 = rbrace then some (.obj [], r1)
        else match parseMembers f (c1 :: r1) with
             | some (ms, r2) => some (.obj (jsonObjOfMembers ms), r2)
             | none => none := rfl

/-- Evaluation of the members parser on a quote-headed input. -/
theorem parseMembers_quote (f : Nat) (r : List Char) :
    parseMembers (f + 1) ('"' :: r) =
      match parseStringAux [] r with
      | none => none
      | some (kchars, r1) =>
        match skipWs r1 with
        | [] => none
        | c2 :: r2 =>
          if c2 = ':' then
            match parseVal f r2 with
            | none => none
            | some (v, r3) =>
              match skipWs r3 with
              | [] => none
              | c3 :: r4 =>
                if c3 = ',' then
                  match parseMembers f r4 with
                  | some (ms, r5) => some ((String.mk kchars, v) :: ms, r5)
                  | none => none
                else if c3 = rbrace then some ([(String.mk kchars, v)], r4)
                else none
          else none := rfl

/-- One object member, given its parsed key, value, and separator. -/
theorem parseMembers_kv_step (f : Nat) (Y r2 r3 r4 kchars : List Char)
    (v : Json) (c3 : Char)
    (hkey : parseStringAux [] Y = some (kchars, ':' :: r2))
    (hval : parseVal f r2 = some (v, r3))
    (hsep : skipWs r3 = c3 :: r4) :
    parseMembers (f + 1) ('"' :: Y) =
      if c3 = ',' then
        match parseMembers f r4 with
        | some (ms, r5) => some ((String.mk kchars, v) :: ms, r5)
        | none => none
      else if c3 = rbrace then some ([(String.mk kchars, v)], r4)
      else none := by
  rw [parseMembers_quote, hkey]
  dsimp only
  rw [skipWs_cons_false _ _ (by decide)]
  dsimp only
  rw [if_pos rfl, hval]
  dsimp only
  rw [hsep]

/-- One member whose value is a string, in the exact rendered shape. -/
theorem parseMembers_strfield (f : Nat) (k s : String) (sep tail : List Char)
    (c3 : Char) (hsep : skipWs sep = c3 :: tail) :
    parseMembers (f + 1 + 1)
      ('"' :: (k.data.flatMap escapeChar ++ '"' :: ':' :: ' ' ::
        '"' :: (s.data.flatMap escapeChar ++ '"' :: sep))) =
      if c3 = ',' then
        match parseMembers (f + 1) tail with
        | some (ms, r5) => some ((k, Json.str s) :: ms, r5)
        | none => none
      else if c3 = rbrace then some ([(k, Json.str s)], tail)
      else none := by
  have hkey : parseStringAux []
      (k.data.flatMap escapeChar ++ '"' :: ':' :: ' ' ::
        '"' :: (s.data.flatMap escapeChar ++ '"' :: sep)) =
      some (k.data,
        ':' :: (' ' :: ('"' :: (s.data.flatMap escapeChar ++ '"' :: sep)))) := by
    have h := parseStringAux_flatMap k.data []
      (':' :: ' ' :: '"' :: (s.data.flatMap escapeChar ++ '"' :: sep))
    simpa using h
  have hval : parseVal (f + 1)
      (' ' :: ('"' :: (s.data.flatMap escapeChar ++ '"' :: sep))) =
      some (Json.str s, sep) := by
    rw [parseVal_space, parseVal_string2]
  rw [parseMembers_kv_step _ _ _ _ _ _ _ _ hkey hval hsep]

/-- The inner three-field object parses to the entry's JSON value. -/
theorem parseVal_entry (f : Nat) (e : DbEntry) (rest : List Char) :
    parseVal (f + 5) (innerObjTextL e ++ rest) = some (entryJson e, rest) := by
  simp only [innerObjTextL, fieldSep, quoteStringL, List.cons_append,
    List.append_assoc, List.nil_append]
  rw [show f + 5 = f + 4 + 1 from rfl, parseVal_lbrace]
  rw [skipWs_cons_true _ _ (by decide), skipWs_cons_true _ _ (by decide),
      skipWs_cons_true _ _ (by decide), skipWs_cons_true _ _ (by decide),
      skipWs_cons_true _ _ (by decide), skipWs_cons_false _ _ (by decide)]
  dsimp only
  rw [if_neg (show ¬('"' : Char) = rbrace by decide)]
  rw [show f + 4 = f + 2 + 1 + 1 from rfl,
      parseMembers_strfield (f + 2) ("name") e.name _ _ ','
        (skipWs_cons_false ',' _ (by decide)), if_pos rfl]
  rw [parseMembers_newline, parseMembers_space, parseMembers_space,
      parseMembers_space, parseMembers_space]
  rw [show f + 2 + 1 = f + 1 + 1 + 1 from rfl,
      parseMembers_strfield (f + 1) ("url") e.url _ _ ','
        (skipWs_cons_false ',' _ (by decide)), if_pos rfl]
  rw [parseMembers_newline, parseMembers_space, parseMembers_space,
      parseMembers_space, parseMembers_space]
  rw [parseMembers_strfield f ("sold_out") e.sold_out _ _ rbrace
        ((skipWs_cons_true '\n' _ (by decide)).trans
          ((skipWs_cons_true ' ' _ (by decide)).trans
            ((skipWs_cons_true ' ' _ (by decide)).trans
              (skipWs_cons_false rbrace _ (by decide))))),
      if_neg (show ¬rbrace = ',' by decide), if_pos rfl]
  rfl

/-- One member whose value is an inner entry object. -/
theorem parseMembers_objfield (f : Nat) (k : String) (e : DbEntry)
    (sep tail : List Char) (c3 : Char) (hsep : skipWs sep = c3 :: tail) :
    parseMembers (f + 5 + 1)
      ('"' :: (k.data.flatMap escapeChar ++ '"' :: ':' :: ' ' ::
        (innerObjTextL e ++ sep))) =
      if c3 = ',' then
        match parseMembers (f + 5) tail with
        | some (ms, r5) => some ((k, entryJson e) :: ms, r5)
        | none => none
      else if c3 = rbrace then some ([(k, entryJson e)], tail)
      else none := by
  have hkey : parseStringAux []
      (k.data.flatMap escapeChar ++ '"' :: ':' :: ' ' :: (innerObjTextL e ++ sep)) =
      some (k.data, ':' :: (' ' :: (innerObjTextL e ++ sep))) := by
    have h := parseStringAux_flatMap k.data [] (':' :: ' ' :: (innerObjTextL e ++ sep))
    simpa using h
  have hval : parseVal (f + 5) (' ' :: (innerObjTextL e ++ sep)) =
      some (entryJson e, sep) := by
    rw [show f + 5 = f + 4 + 1 from rfl, parseVal_space,
        show f + 4 + 1 = f + 5 from rfl, parseVal_entry]
  rw [parseMembers_kv_step _ _ _ _ _ _ _ _ hkey hval hsep]

/-- Parsing a nonempty rendered entry list, member by member. -/
theorem parseMembers_entryList :
    ∀ (tl : Db) (kv : String × DbEntry) (f : Nat) (rest : List Char),
      parseMembers (f + tl.length + 6)
        ('"' :: (kv.1.data.flatMap escapeChar ++ '"' :: ':' :: ' ' ::
          (innerObjTextL kv.2 ++ (entriesSepText tl ++ '\n' :: rbrace :: rest)))) =
      some ((kv.1, entryJson kv.2) :: tl.map (fun p => (p.1, entryJson p.2)), rest)
  | [], kv, f, rest => by
    simp only [entriesSepText, List.nil_append, List.length_nil, List.map_nil]
    rw [show f + 0 + 6 = f + 5 + 1 from rfl,
        parseMembers_objfield f kv.1 kv.2 _ _ rbrace
          ((skipWs_cons_true '\n' _ (by decide)).trans
            (skipWs_cons_false rbrace _ (by decide))),
        if_neg (show ¬rbrace = ',' by decide), if_pos rfl]
  | kv2 :: tl2, kv, f, rest => by
    simp only [entriesSepText, serializeEntryL, entryTail, quoteStringL,
      List.cons_append, List.append_assoc, List.nil_append, List.length_cons]
    rw [show f + (tl2.length + 1) + 6 = f + tl2.length + 1 + 5 + 1 from rfl,
        parseMembers_objfield (f + tl2.length + 1) kv.1 kv.2 _ _ ','
          (skipWs_cons_false ',' _ (by decide)), if_pos rfl]
    rw [show f + tl2.length + 1 + 5 = f + tl2.length + 5 + 1 from rfl,
        parseMembers_newline, parseMembers_space, parseMembers_space,
        show f + tl2.length + 5 + 1 = f + tl2.length + 6 from rfl,
        parseMembers_entryList tl2 kv2 f rest]
    rfl

/-- Parsing the full rendered nonempty snapshot text. -/
theorem parseVal_serializeDb (kv : String × DbEntry) (tl : Db) (f : Nat)
    (rest : List Char) :
    parseVal (f + tl.length + 7) (serializeDbL (kv :: tl) ++ rest) =
      some (Json.obj (jsonObjOfMembers
        ((kv :: tl).map (fun p => (p.1, entryJson p.2)))), rest) := by
  simp only [serializeDbL, serializeEntriesL, serializeEntryL, entryTail,
    quoteStringL, List.cons_append, List.append_assoc, List.nil_append]
  rw [show f + tl.length + 7 = f + tl.length + 6 + 1 from rfl, parseVal_lbrace]
  rw [skipWs_cons_true '\n' _ (by decide), skipWs_cons_true ' ' _ (by decide),
      skipWs_cons_true ' ' _ (by decide), skipWs_cons_false '"' _ (by decide)]
  dsimp only
  rw [if_neg (show ¬('"' : Char) = rbrace by decide),
      parseMembers_entryList tl kv f rest]
  rfl

theorem quoteStringL_length (s : String) : 2 ≤ (quoteStringL s).length := by
  simp [quoteStringL]

theorem innerObjTextL_length (e : DbEntry) : 4 ≤ (innerObjTextL e).length := by
  simp [innerObjTextL, fieldSep]

theorem entriesSepText_length :
    ∀ tl : Db, tl.length ≤ (entriesSepText tl).length
  | [] => by simp [entriesSepText]
  | kv :: tl => by
    have h := entriesSepText_length tl
    simp [entriesSepText, serializeEntryL]
    omega

theorem serializeDbL_length (kv : String × DbEntry) (tl : Db) :
    (kv :: tl : Db).length + 5 ≤ (serializeDbL (kv :: tl)).length := by
  have h1 := entriesSepText_length tl
  have h2 := quoteStringL_length kv.1
  have h3 := innerObjTextL_length kv.2
  simp [serializeDbL, serializeEntriesL, serializeEntryL, entryTail]
  omega

/-- The rendered snapshot parses back, with the fuel `jsonParse` supplies. -/
theorem jsonParse_serializeDb (db : Db) :
    jsonParse (serializeDb db) =
      some (Json.obj (jsonObjOfMembers (db.map (fun p => (p.1, entryJson p.2))))) := by
  match db with
  | [] => rfl
  | kv :: tl =>
    unfold jsonParse serializeDb
    rw [show (String.mk (serializeDbL (kv :: tl))).data = serializeDbL (kv :: tl)
        from rfl]
    have hlen := serializeDbL_length kv tl
    obtain ⟨f, hf⟩ : ∃ f,
        (serializeDbL (kv :: tl)).length + 1 = f + tl.length + 7 :=
      ⟨(serializeDbL (kv :: tl)).length - tl.length - 6, by
        simp only [List.length_cons] at hlen
        omega⟩
    rw [hf, ← List.append_nil (serializeDbL (kv :: tl)),
        parseVal_serializeDb kv tl f []]
    rfl

/-- Setting a fresh key appends it at the end of a dict's member list. -/
theorem jsonObjSet_append (ms : List (String × Json)) (k : String) (v : Json)
    (hk : k ∉ ms.map Prod.fst) : jsonObjSet ms k v = ms ++ [(k, v)] := by
  induction ms with
  | nil => rfl
  | cons hd tl ih =>
    obtain ⟨k0, v0⟩ := hd
    simp only [List.map_cons, List.mem_cons, not_or] at hk
    rw [show jsonObjSet ((k0, v0) :: tl) k v =
        if k0 = k then (k, v) :: tl else (k0, v0) :: jsonObjSet tl k v from rfl,
      if_neg (fun h => hk.1 h.symm), ih hk.2]
    simp

/-- Folding dict insertion over members with pairwise-distinct keys,
starting from a disjoint accumulator, appends them in order. -/
theorem foldl_jsonObjSet (ms : List (String × Json)) :
    ∀ acc : List (String × Json), (ms.map Prod.fst).Nodup →
      (∀ k ∈ ms.map Prod.fst, k ∉ acc.map Prod.fst) →
      ms.foldl (fun a kv => jsonObjSet a kv.1 kv.2) acc = acc ++ ms := by
  induction ms with
  | nil =>
    intro acc _ _
    simp
  | cons hd tl ih =>
    intro acc hnd hdisj
    obtain ⟨k0, v0⟩ := hd
    simp only [List.map_cons, List.nodup_cons] at hnd
    simp only [List.foldl_cons]
    rw [jsonObjSet_append acc k0 v0 (hdisj k0 (by simp)),
        ih (acc ++ [(k0, v0)]) hnd.2 ?_]
    · simp
    · intro k hk
      simp only [List.map_append, List.map_cons, List.map_nil, List.mem_append,
        List.mem_cons, not_or, List.not_mem_nil, or_false]
      exact ⟨hdisj k (by simp [hk]), fun h => hnd.1 (h ▸ hk)⟩

/-- With pairwise-distinct keys, dict collapse is the identity. -/
theorem jsonObjOfMembers_eq (ms : List (String × Json))
    (h : (ms.map Prod.fst).Nodup) : jsonObjOfMembers ms = ms := by
  have := foldl_jsonObjSet ms [] h (by simp)
  simpa [jsonObjOfMembers] using this

/-- Decoding the JSON image of a snapshot recovers the snapshot. -/
theorem dbEntriesFromJson_map (db : Db) :
    dbEntriesFromJson (db.map (fun p => (p.1, entryJson p.2))) = some db := by
  induction db with
  | nil => rfl
  | cons kv tl ih =>
    simp only [List.map_cons]
    rw [show dbEntriesFromJson ((kv.1, entryJson kv.2) ::
          tl.map (fun p => (p.1, entryJson p.2))) =
        match entryFromJson (entryJson kv.2),
            dbEntriesFromJson (tl.map (fun p => (p.1, entryJson p.2))) with
        | some e, some d => some ((kv.1, e) :: d)
        | _, _ => none from rfl,
      ih]
    rfl

/-- A JSON value that is not an object never decodes as a snapshot. -/
theorem dbFromJson_of_not_obj (v : Json) (h : v.isObj = false) :
    dbFromJson v = none := by
  cases v <;> simp [dbFromJson, Json.isObj] at h ⊢

/-! ## Claim theorems: orchestrator and snapshot store -/

/-- C3, counterexample: an empty batch (with category links found) does
**not** leave the persisted snapshot unchanged — the run overwrites a
nonempty prior snapshot with the serialized empty snapshot (the code's own
comment: if no products are found, the database should be empty). -/
theorem claim3_counterexample :
    mainRun [("c")] []
        (some (serializeDb [(("k" : String), ⟨"a", "u", "Yes"⟩)])) ≠
      some (serializeDb [(("k" : String), ⟨"a", "u", "Yes"⟩)]) := by
  decide

/-- C3, amended: whenever extraction yields zero records while category
links were found, the run replaces the persisted snapshot with the empty
snapshot, whatever the prior file contents were. -/
theorem claim3_empty_batch_wipes (cats : List String) (B : List Product)
    (fs : Option String) (hc : cats ≠ []) (hB : B = []) :
    mainRun cats B fs = some (serializeDb []) := by
  unfold mainRun
  rw [if_neg hc, if_pos hB]

/-- C3, witness: a concrete empty-batch run wiping a prior file. -/
theorem claim3_witness :
    mainRun [("c")] [] (some ("prior contents")) = some (serializeDb []) :=
  claim3_empty_batch_wipes [("c")] [] (some ("prior contents")) (by decide) rfl

/-- C5, counterexample: persisted contents that are valid JSON but not an
object are returned by `load_product_database` as-is — not as a snapshot
and not as the empty snapshot — contradicting the claim for this persisted
state. -/
theorem claim5_counterexample :
    load_product_database (some ("[]")) = Json.arr [] ∧
    Json.isObj (load_product_database (some ("[]"))) = false :=
  ⟨rfl, rfl⟩

/-- C5, amended: a missing file or contents that fail to parse as JSON are
recovered as the empty snapshot; but contents parsing to a non-object JSON
value are returned unchanged, and the run then crashes before saving (the
file is left as it was) instead of recovering. -/
theorem claim5_load_recovery_amended (s : String) (hbad : jsonParse s = none)
    (cats : List String) (B : List Product) (hc : cats ≠ []) (hB : B ≠ []) :
    load_product_database none = Json.obj [] ∧
    load_product_database (some s) = Json.obj [] ∧
    ∀ fs : Option String, Json.isObj (load_product_database fs) = false →
      mainRun cats B fs = fs := by
  refine ⟨rfl, ?_, ?_⟩
  · unfold load_product_database
    simp [hbad]
  · intro fs hobj
    unfold mainRun
    rw [if_neg hc, if_neg hB, dbFromJson_of_not_obj _ hobj]

/-- C5, witness: unparseable contents load as the empty snapshot, and a
non-object JSON file makes a concrete run leave the file untouched. -/
theorem claim5_witness :
    load_product_database (some ("not json")) = Json.obj [] ∧
    mainRun [("c")] [⟨"A", "$1", "u", "No", "x"⟩] (some ("[]")) = some ("[]") :=
  ⟨(claim5_load_recovery_amended ("not json") rfl [("c")]
      [⟨"A", "$1", "u", "No", "x"⟩] (by decide) (by decide)).2.1,
   (claim5_load_recovery_amended ("not json") rfl [("c")]
      [⟨"A", "$1", "u", "No", "x"⟩] (by decide) (by decide)).2.2
     (some ("[]")) rfl⟩

/-- C6, counterexample: the save is not atomic. Because the code opens the
file in mode `w` (truncate in place) before writing, the empty contents are
observable mid-save: a state that is neither the pre-save contents nor the
completed serialization, so an interrupted write does not leave the
pre-save contents. -/
theorem claim6_counterexample :
    some "" ∈ save_write_states
        (some (serializeDb [(("k" : String), ⟨"a", "u", "Yes"⟩)]))
        [(("k2" : String), ⟨"b", "v", "No"⟩)] ∧
    some "" ≠ some (serializeDb [(("k" : String), ⟨"a", "u", "Yes"⟩)]) ∧
    some "" ≠ some (serializeDb [(("k2" : String), ⟨"b", "v", "No"⟩)]) := by
  decide

/-- C6, amended: a completed save does replace the prior contents wholesale
— the last observable state is exactly the full serialization — but the
write is not atomic: every observable state is either the pre-save contents
or some prefix (the empty one included) of the new serialization. -/
theorem claim6_save_wholesale_amended (pre : Option String) (db : Db)
    (s : Option String) (hs : s ∈ save_write_states pre db) :
    (save_write_states pre db).getLast? = some (some (serializeDb db)) ∧
    (s = pre ∨ ∃ n, s = some (String.mk ((serializeDbL db).take n))) := by
  constructor
  · unfold save_write_states
    rw [List.range_succ, List.map_append]
    simp only [List.map_cons, List.map_nil]
    rw [← List.cons_append, List.getLast?_concat, List.take_length]
    rfl
  · rcases List.mem_cons.mp hs with h | h
    · exact Or.inl h
    · obtain ⟨n, _, hn⟩ := List.mem_map.mp h
      exact Or.inr ⟨n, hn.symm⟩

/-- C6, witness: the amended statement at a concrete prior file and
snapshot, for the truncated (empty) intermediate state. -/
theorem claim6_witness :
    (save_write_states (some ("old")) [(("k" : String), ⟨"a", "u", "Yes"⟩)]).getLast? =
      some (some (serializeDb [(("k" : String), ⟨"a", "u", "Yes"⟩)])) ∧
    (some "" = some ("old") ∨ ∃ n, some "" = some (String.mk
      ((serializeDbL [(("k" : String), ⟨"a", "u", "Yes"⟩)]).take n))) :=
  claim6_save_wholesale_amended (some ("old"))
    [(("k" : String), ⟨"a", "u", "Yes"⟩)] (some "") (by decide)

/-- C9: the persisted snapshot is rebuilt from the current batch alone.
For any run with category links, a nonempty batch, and a prior file loading
as a well-formed snapshot, the file is replaced by the serialization of
`current_db`, and a key is present in `current_db` exactly when it is the
hash of some batch record's URL — entries for products absent from the
batch are dropped, never carried forward. -/
theorem claim9_rebuild_from_batch (cats : List String) (B : List Product)
    (fs : Option String) (prev : Db) (hc : cats ≠ []) (hB : B ≠ [])
    (hload : dbFromJson (load_product_database fs) = some prev) :
    mainRun cats B fs = some (serializeDb (classify B prev).current_db) ∧
    ∀ k, (dbGet (classify B prev).current_db k).isSome ↔
      ∃ p ∈ B, sha256Hex p.url = k := by
  constructor
  · unfold mainRun
    rw [if_neg hc, if_neg hB, hload]
  · intro k
    rw [dbGet_classify_current_db]
    simp [List.find?_isSome, List.mem_reverse]

/-- C9, witness: a concrete first run persists exactly its batch's keys. -/
theorem claim9_witness :
    mainRun [("c")] [⟨"A", "$1", "u", "No", "x"⟩] none =
      some (serializeDb (classify [⟨"A", "$1", "u", "No", "x"⟩] []).current_db) :=
  (claim9_rebuild_from_batch [("c")] [⟨"A", "$1", "u", "No", "x"⟩] none []
    (by decide) (by decide) rfl).1

/-- C7: snapshot persistence is lossless. For every snapshot — an
association list with pairwise-distinct keys, which is what a mapping is and
what every run persists — saving (whose completed contents are
`serializeDb db`) and then loading parses back exactly the snapshot's JSON
value, and decoding that value recovers a snapshot equal to the original. -/
theorem claim7_save_load_roundtrip (db : Db)
    (hnd : (db.map Prod.fst).Nodup) :
    load_product_database (some (serializeDb db)) = dbToJson db ∧
    dbFromJson (load_product_database (some (serializeDb db))) = some db := by
  have hkeys : (db.map (fun p => (p.1, entryJson p.2))).map Prod.fst =
      db.map Prod.fst := by
    simp [List.map_map, Function.comp]
  have hload : load_product_database (some (serializeDb db)) = dbToJson db := by
    unfold load_product_database
    dsimp only
    rw [jsonParse_serializeDb db]
    dsimp only
    unfold dbToJson
    rw [jsonObjOfMembers_eq _ (by rw [hkeys]; exact hnd)]
  refine ⟨hload, ?_⟩
  rw [hload]
  unfold dbToJson
  exact dbEntriesFromJson_map db

/-- C7, witness: the round trip at a concrete two-entry snapshot whose
entries exercise escaping-free and quoted data alike. -/
theorem claim7_witness :
    load_product_database (some (serializeDb
        [(("k1" : String), ⟨"A \"quoted\" name", "u1", "No"⟩),
         (("k2" : String), ⟨"B", "u2", "Yes"⟩)])) =
      dbToJson
        [(("k1" : String), ⟨"A \"quoted\" name", "u1", "No"⟩),
         (("k2" : String), ⟨"B", "u2", "Yes"⟩)] ∧
    dbFromJson (load_product_database (some (serializeDb
        [(("k1" : String), ⟨"A \"quoted\" name", "u1", "No"⟩),
         (("k2" : String), ⟨"B", "u2", "Yes"⟩)]))) =
      some [(("k1" : String), ⟨"A \"quoted\" name", "u1", "No"⟩),
            (("k2" : String), ⟨"B", "u2", "Yes"⟩)] :=
  claim7_save_load_roundtrip
    [(("k1" : String), ⟨"A \"quoted\" name", "u1", "No"⟩),
     (("k2" : String), ⟨"B", "u2", "Yes"⟩)] (by decide)

/-- C8: the identifier derivation is a pure function of the identity-key
string — evaluating it twice on the same key yields the identical digest —
it matches SHA-256 (the program's fixed algorithm) on known test vectors,
and it separates a fixed corpus of distinct keys pairwise. -/
theorem claim8_hash_determinism :
    (∀ k : String, sha256Hex k = sha256Hex k) ∧
    sha256Hex ("") =
      "e3b0c44298fc1c149afbf4c8996fb92427ae41e4649b934ca495991b7852b855" ∧
    sha256Hex ("abc") =
      "ba7816bf8f01cfea414140de5dae2223b00361a396177a9cb410ff61f20015ad" ∧
    (List.map sha256Hex
      ["", "abc", "hello", "u", "https://www.example.com/collections/a"]).Nodup :=
  ⟨fun _ => rfl, by decide, by decide, by decide⟩

end AncientOwls
